import Mathlib

/-!
Shallow embedding of `image handliing/convert-images.py`.

The program has two code paths:
* `image_to_data_uri` / `convert_all_images_in_folder` — the general-purpose
  single-file encoder and folder batch converter;
* a module-level fixed-folder loop over the folder `primary` with a two-way
  MIME rule, writing to `examples/converted_images.json`.

Bytes are modelled as `Nat` (with the `< 256` range stated as a hypothesis
where it matters), file contents as `List Nat`, and the filesystem state seen
by one invocation as an explicit `FolderState` (existence flag, directory
flag, and the directory entries in `iterdir` order).  Console output and the
written JSON file are returned explicitly; an uncaught Python exception is
modelled by an `exn` field naming the exception class.
-/

namespace ConvertImages

/-! ### Base64 (model of Python `base64.b64encode` / `base64.b64decode`) -/

/-- The standard base64 alphabet, index `n` holding the character that
encodes the 6-bit value `n`. -/
def b64chars : List Char :=
  ['A','B','C','D','E','F','G','H','I','J','K','L','M','N','O','P',
   'Q','R','S','T','U','V','W','X','Y','Z',
   'a','b','c','d','e','f','g','h','i','j','k','l','m','n','o','p',
   'q','r','s','t','u','v','w','x','y','z',
   '0','1','2','3','4','5','6','7','8','9','+','/']

/-- Character encoding a 6-bit group. -/
def encChar (n : Nat) : Char := b64chars.getD n 'A'

/-- Index of a character in the base64 alphabet (inverse of `encChar` on
valid input). -/
def decChar (c : Char) : Nat := b64chars.indexOf c

/-- RFC 4648 base64 of a byte sequence, with `=` padding — the transform
performed by `base64.b64encode(...).decode()` in the source. -/
def b64encode : List Nat → List Char
  | [] => []
  | [a] => [encChar (a / 4), encChar (a % 4 * 16), '=', '=']
  | [a, b] => [encChar (a / 4), encChar (a % 4 * 16 + b / 16),
               encChar (b % 16 * 4), '=']
  | a :: b :: c :: rest =>
      encChar (a / 4) :: encChar (a % 4 * 16 + b / 16) ::
      encChar (b % 16 * 4 + c / 64) :: encChar (c % 64) :: b64encode rest

/-- Base64 decoding of a canonical padded encoding (the behaviour of
`base64.b64decode` on the strings produced by `b64encode`). -/
def b64decode : List Char → List Nat
  | w :: x :: y :: z :: rest =>
      if z = '=' then
        if y = '=' then
          [decChar w * 4 + decChar x / 16]
        else
          [decChar w * 4 + decChar x / 16, decChar x % 16 * 16 + decChar y / 4]
      else
        (decChar w * 4 + decChar x / 16) ::
        (decChar x % 16 * 16 + decChar y / 4) ::
        (decChar y % 4 * 64 + decChar z) :: b64decode rest
  | _ => []

/-! ### Extension parsing

`os.path.splitext(p)[1]` (CPython, posix slash separator): the extension starts
at the last dot of the final path component, provided some character of that
component strictly before the last dot is not itself a dot; otherwise it is
empty.  `pathlib.PurePath.suffix` on a final component `name`: with
`i` the index of the last dot of `name`, the suffix is `name[i:]` when
`0 < i < len(name) - 1`,
else empty.  Both are implemented below on reversed character lists, which
makes "after the last dot" a `takeWhile`. -/

/-- The extension component `os.path.splitext(p)[1]`, dot included. -/
def splitextExt (p : List Char) : List Char :=
  let base := (p.reverse.takeWhile (fun c => c ≠ '/')).reverse
  let rev := base.reverse
  if (rev.dropWhile (fun c => c ≠ '.')).tail.any (fun c => c ≠ '.') then
    '.' :: (rev.takeWhile (fun c => c ≠ '.')).reverse
  else []

/-- `pathlib` suffix of a final path component. -/
def pathSuffix (name : List Char) : List Char :=
  let rev := name.reverse
  let after := rev.takeWhile (fun c => c ≠ '.')
  let rest := rev.dropWhile (fun c => c ≠ '.')
  if rest ≠ [] ∧ after ≠ [] ∧ rest.tail ≠ [] then
    '.' :: after.reverse
  else []

/-- `pathlib` suffix, on strings. -/
def pathSuffixStr (name : String) : String := String.mk (pathSuffix name.data)

/-- Python `str.lower()`, restricted to the ASCII case mapping. -/
def strLower (s : String) : String := String.mk (s.data.map Char.toLower)

/-- `os.path.splitext(image_path)[1][1:].lower()` — the lowered extension
without its dot, as computed inside `image_to_data_uri`. -/
def extLower (image_path : String) : String :=
  String.mk (((splitextExt image_path.data).drop 1).map Char.toLower)

/-! ### The single-file encoder -/

/-- The `mime_types` dictionary of the source, as an association list. -/
def mime_types : List (String × String) :=
  [("png", "image/png"), ("jpg", "image/jpeg"), ("jpeg", "image/jpeg"),
   ("gif", "image/gif"), ("webp", "image/webp")]

/-- Dictionary lookup `mime_types.get(ext, default)` with default
`image/png`. -/
def mimeGet (ext : String) : String :=
  ((mime_types.find? (fun kv => kv.1 = ext)).map (fun kv => kv.2)).getD "image/png"

/-- `image_to_data_uri(image_path)` where the file at `image_path` holds the
bytes `content` (the `open`/`read` is modelled by passing the bytes in). -/
def image_to_data_uri (image_path : String) (content : List Nat) : String :=
  let encoded := String.mk (b64encode content)
  let ext := extLower image_path
  let mime := mimeGet ext
  "data:" ++ mime ++ ";base64," ++ encoded

/-! ### JSON serialization (model of `json.dump(results, f, indent=2)`) -/

/-- Lowercase hexadecimal digit. -/
def hexDigit (n : Nat) : Char := "0123456789abcdef".data.getD n '0'

/-- `\uXXXX` escape for a code unit below `0x10000`. -/
def uEscape (n : Nat) : List Char :=
  ['\\', 'u', hexDigit (n / 4096 % 16), hexDigit (n / 256 % 16),
   hexDigit (n / 16 % 16), hexDigit (n % 16)]

/-- Python `json` escaping of one character (`ensure_ascii` default):
shortcuts for `"`, `\`, and the five named control characters, `\uXXXX`
(surrogate pair above the BMP) for everything outside printable ASCII. -/
def jsonEscapeChar (c : Char) : List Char :=
  if c = '"' then ['\\', '"']
  else if c = '\\' then ['\\', '\\']
  else if c = '\n' then ['\\', 'n']
  else if c = '\t' then ['\\', 't']
  else if c = '\x0d' then ['\\', 'r']
  else if c.toNat = 8 then ['\\', 'b']
  else if c.toNat = 12 then ['\\', 'f']
  else if c.toNat < 0x20 ∨ 0x7f ≤ c.toNat then
    if c.toNat < 0x10000 then uEscape c.toNat
    else uEscape (0xd800 + (c.toNat - 0x10000) / 1024) ++
         uEscape (0xdc00 + (c.toNat - 0x10000) % 1024)
  else [c]

/-- A JSON string literal, quotes included. -/
def jsonString (s : String) : String :=
  String.mk ('"' :: s.data.foldr (fun c acc => jsonEscapeChar c ++ acc) ['"'])

/-- `json.dump(m, f, indent=2)` on a string-to-string dict: `\x7b\x7d` for the
empty dict, otherwise one two-space-indented `"key": "value"` line per entry,
separated by `,\n`, between braces on their own lines. -/
def jsonDump (m : List (String × String)) : String :=
  match m with
  | [] => "\x7b\x7d"
  | _ => "\x7b\n" ++
      String.intercalate ",\n"
        (m.map (fun kv => "  " ++ jsonString kv.1 ++ ": " ++ jsonString kv.2)) ++
      "\n\x7d"

/-! ### The folder batch converter -/

/-- What one invocation observes of the filesystem: whether the path exists
(`Path.exists()`), whether it is a directory, and — when it is — the entries
`iterdir` yields, in order, each a (final-component name, byte content)
pair. -/
structure FolderState where
  existsFS : Bool
  isDir : Bool
  entries : List (String × List Nat)

/-- The `extensions` list of `convert_all_images_in_folder`. -/
def extensions : List String := [".png", ".jpg", ".jpeg", ".gif", ".webp"]

/-- Python dict assignment `m[k] = v`: update in place when the key is
present, append otherwise. -/
def dictInsert (m : List (String × String)) (k v : String) :
    List (String × String) :=
  if m.any (fun kv => kv.1 = k) then
    m.map (fun kv => if kv.1 = k then (k, v) else kv)
  else m ++ [(k, v)]

/-- The `for image_file in folder.iterdir():` loop of
`convert_all_images_in_folder`, threading the printed lines and the
`results` dict. -/
def convLoop (folder_path : String) (printed : List String)
    (results : List (String × String)) :
    List (String × List Nat) → List String × List (String × String)
  | [] => (printed, results)
  | (name, content) :: rest =>
      if strLower (pathSuffixStr name) ∈ extensions then
        convLoop folder_path (printed ++ ["Converting: " ++ name])
          (dictInsert results name
            (image_to_data_uri (folder_path ++ "/" ++ name) content)) rest
      else
        convLoop folder_path printed results rest

/-- The observable outcome of one converter invocation: console lines in
order, the final `results` dict, the file written (path and text), and the
uncaught Python exception, if one is raised. -/
structure ConvOutput where
  printed : List String
  results : List (String × String)
  written : Option (String × String)
  exn : Option String
  deriving DecidableEq, Repr

/-- `convert_all_images_in_folder(folder_path)` against filesystem state
`st`.  A missing folder takes the early-`return` branch; an existing
non-directory makes `folder.iterdir()` raise `NotADirectoryError`, which
nothing catches; otherwise the loop runs, `converted_images.json` is written
inside the scanned folder, and the summary lines are printed. -/
def convert_all_images_in_folder (folder_path : String) (st : FolderState) :
    ConvOutput :=
  if st.existsFS = false then
    { printed := ["Error: Folder \x27" ++ folder_path ++ "\x27 not found!"],
      results := [], written := none, exn := none }
  else if st.isDir = false then
    { printed := [], results := [], written := none,
      exn := some "NotADirectoryError" }
  else
    let pr := convLoop folder_path [] [] st.entries
    let output_file := folder_path ++ "/converted_images.json"
    { printed := pr.1 ++
        ["\n✓ Converted " ++ toString pr.2.length ++ " images",
         "✓ Results saved to: " ++ output_file,
         "\nYou can now copy the data URIs from the JSON file!"],
      results := pr.2,
      written := some (output_file, jsonDump pr.2),
      exn := none }

/-! ### The fixed-folder variant (module-level loop over `primary`) -/

/-- The data-URI string the fixed-folder loop stores for one file: base64 of
the bytes with the two-way MIME rule — image/jpeg when the lowered suffix
equals `.jpg`, image/png otherwise. -/
def variantDataUri (name : String) (content : List Nat) : String :=
  let mime := if strLower (pathSuffixStr name) = ".jpg" then "image/jpeg"
              else "image/png"
  "data:" ++ mime ++ ";base64," ++ String.mk (b64encode content)

/-- The `for img in folder.iterdir():` loop of the variant. -/
def variantLoop (printed : List String) (results : List (String × String)) :
    List (String × List Nat) → List String × List (String × String)
  | [] => (printed, results)
  | (name, content) :: rest =>
      if strLower (pathSuffixStr name) ∈ [".png", ".jpg", ".jpeg"] then
        variantLoop (printed ++ ["Converted: " ++ name])
          (dictInsert results name (variantDataUri name content)) rest
      else
        variantLoop printed results rest

/-- The module-level fixed-folder script against the state of the folder
`primary`.  There is no existence check: `iterdir` on a missing path raises
`FileNotFoundError`, on a non-directory `NotADirectoryError`, and neither is
caught anywhere; otherwise the loop runs and the results are written to
`examples/converted_images.json`. -/
def fixedFolderScript (st : FolderState) : ConvOutput :=
  if st.existsFS = false then
    { printed := [], results := [], written := none,
      exn := some "FileNotFoundError" }
  else if st.isDir = false then
    { printed := [], results := [], written := none,
      exn := some "NotADirectoryError" }
  else
    let pr := variantLoop [] [] st.entries
    { printed := pr.1 ++ ["\nDone! Saved to examples/converted_images.json"],
      results := pr.2,
      written := some ("examples/converted_images.json", jsonDump pr.2),
      exn := none }

/-! ### Claim-side definitions

These restate, in the words of the specification, structures that the claims
compare against the source definitions above. -/

/-- The extension-to-MIME table as the specification states it. -/
def claimMime (e : String) : String :=
  if e = "png" then "image/png"
  else if e = "jpg" ∨ e = "jpeg" then "image/jpeg"
  else if e = "gif" then "image/gif"
  else if e = "webp" then "image/webp"
  else "image/png"

/-- The MIME segment of a data URI: the characters between the five-character
scheme prefix and the first semicolon. -/
def mimeSegment (s : String) : String :=
  String.mk ((s.data.drop 5).takeWhile (fun c => c ≠ ';'))

/-! ### Base64 inversion lemmas -/

theorem decChar_encChar : ∀ n, n < 64 → decChar (encChar n) = n := by decide

theorem encChar_ne_pad : ∀ n, n < 64 → encChar n ≠ '=' := by decide

/-- Decoding inverts encoding on byte sequences: the round-trip law of the
base64 pair. -/
theorem b64decode_encode (b : List Nat) (h : ∀ x ∈ b, x < 256) :
    b64decode (b64encode b) = b := by
  induction b using b64encode.induct with
  | case1 => rfl
  | case2 a =>
      have ha : a < 256 := h a (by simp)
      simp only [b64encode, b64decode, if_pos]
      rw [decChar_encChar _ (by omega), decChar_encChar _ (by omega)]
      have e1 : a / 4 * 4 + a % 4 * 16 / 16 = a := by omega
      rw [e1]
  | case3 a b =>
      have ha : a < 256 := h a (by simp)
      have hb : b < 256 := h b (by simp)
      simp only [b64encode, b64decode]
      rw [if_pos trivial, if_neg (encChar_ne_pad _ (by omega))]
      rw [decChar_encChar _ (by omega), decChar_encChar _ (by omega),
          decChar_encChar _ (by omega)]
      have e1 : a / 4 * 4 + (a % 4 * 16 + b / 16) / 16 = a := by omega
      have e2 : (a % 4 * 16 + b / 16) % 16 * 16 + b % 16 * 4 / 4 = b := by omega
      rw [e1, e2]
  | case4 a b c rest ih =>
      have ha : a < 256 := h a (by simp)
      have hb : b < 256 := h b (by simp)
      have hc : c < 256 := h c (by simp)
      simp only [b64encode, b64decode]
      rw [if_neg (encChar_ne_pad _ (by omega))]
      rw [decChar_encChar _ (by omega), decChar_encChar _ (by omega),
          decChar_encChar _ (by omega), decChar_encChar _ (by omega)]
      have e1 : a / 4 * 4 + (a % 4 * 16 + b / 16) / 16 = a := by omega
      have e2 : (a % 4 * 16 + b / 16) % 16 * 16 + (b % 16 * 4 + c / 64) / 4 = b := by omega
      have e3 : (b % 16 * 4 + c / 64) % 4 * 64 + c % 64 = c := by omega
      rw [e1, e2, e3, ih (fun x hx => h x (by simp [hx]))]

/-! ### The MIME table lemmas -/

/-- The dictionary lookup of the source computes the table the specification
states. -/
theorem mimeGet_eq_claim (e : String) : mimeGet e = claimMime e := by
  by_cases h1 : e = "png"
  · subst h1; decide
  by_cases h2 : e = "jpg"
  · subst h2; decide
  by_cases h3 : e = "jpeg"
  · subst h3; decide
  by_cases h4 : e = "gif"
  · subst h4; decide
  by_cases h5 : e = "webp"
  · subst h5; decide
  simp [mimeGet, mime_types, claimMime, List.find?, h1, h2, h3, h4, h5,
        Ne.symm h1, Ne.symm h2, Ne.symm h3, Ne.symm h4, Ne.symm h5]

theorem takeWhile_append_stop {α : Type} (p : α → Bool) (l r : List α) (x : α)
    (hl : ∀ c ∈ l, p c = true) (hx : p x = false) :
    (l ++ x :: r).takeWhile p = l := by
  induction l with
  | nil => simp [List.takeWhile_cons, hx]
  | cons a t ih =>
      simp [List.takeWhile_cons, hl a (by simp)]
      exact ih (fun c hc => hl c (by simp [hc]))

theorem mimeGet_no_semicolon (e : String) : ∀ c ∈ (mimeGet e).data, c ≠ ';' := by
  rw [mimeGet_eq_claim, claimMime]
  split_ifs <;> decide

/-- Reading the MIME segment back out of an assembled data URI. -/
theorem mimeSegment_build (m enc : String) (hm : ∀ c ∈ m.data, c ≠ ';') :
    mimeSegment ("data:" ++ m ++ ";base64," ++ enc) = m := by
  unfold mimeSegment
  have hdata : ("data:" ++ m ++ ";base64," ++ enc).data
      = "data:".data ++ (m.data ++ (';' :: ("base64,".data ++ enc.data))) := by
    simp [String.data_append]
  rw [hdata]
  have h2 : ("data:".data ++ (m.data ++ (';' :: ("base64,".data ++ enc.data)))).drop 5
      = m.data ++ (';' :: ("base64,".data ++ enc.data)) := rfl
  rw [h2, takeWhile_append_stop _ _ _ _ (fun c hc => decide_eq_true (hm c hc))
        (by decide)]

/-! ### Whitespace-freeness of the produced URI -/

theorem encChar_mem (n : Nat) : encChar n ∈ b64chars := by
  unfold encChar
  rcases Nat.lt_or_ge n b64chars.length with h | h
  · rw [List.getD_eq_getElem _ _ h]; exact List.getElem_mem _
  · rw [List.getD_eq_default _ _ h]; decide

theorem mem_b64chars_not_ws : ∀ c ∈ b64chars, c.isWhitespace = false := by decide

theorem b64encode_not_ws (b : List Nat) : ∀ c ∈ b64encode b, c.isWhitespace = false := by
  induction b using b64encode.induct with
  | case1 => intro c hc; simp [b64encode] at hc
  | case2 a =>
      intro c hc
      simp only [b64encode, List.mem_cons, List.not_mem_nil, or_false] at hc
      rcases hc with rfl | rfl | rfl | rfl
      · exact mem_b64chars_not_ws _ (encChar_mem _)
      · exact mem_b64chars_not_ws _ (encChar_mem _)
      · decide
      · decide
  | case3 a b =>
      intro c hc
      simp only [b64encode, List.mem_cons, List.not_mem_nil, or_false] at hc
      rcases hc with rfl | rfl | rfl | rfl
      · exact mem_b64chars_not_ws _ (encChar_mem _)
      · exact mem_b64chars_not_ws _ (encChar_mem _)
      · exact mem_b64chars_not_ws _ (encChar_mem _)
      · decide
  | case4 a b c rest ih =>
      intro ch hch
      simp only [b64encode, List.mem_cons] at hch
      rcases hch with rfl | rfl | rfl | rfl | hmem
      · exact mem_b64chars_not_ws _ (encChar_mem _)
      · exact mem_b64chars_not_ws _ (encChar_mem _)
      · exact mem_b64chars_not_ws _ (encChar_mem _)
      · exact mem_b64chars_not_ws _ (encChar_mem _)
      · exact ih ch hmem

theorem mimeGet_not_ws (e : String) : ∀ c ∈ (mimeGet e).data, c.isWhitespace = false := by
  rw [mimeGet_eq_claim, claimMime]
  split_ifs <;> decide

/-- C3: on any file with a supported extension and any byte content, the
returned string has the exact shape of a data URI, contains no whitespace,
and base64-decoding the payload after the comma gives back exactly the
content bytes. -/
theorem data_uri_roundtrip (image_path : String) (b : List Nat)
    (hb : ∀ x ∈ b, x < 256)
    (hsup : extLower image_path ∈ ["png", "jpg", "jpeg", "gif", "webp"]) :
    image_to_data_uri image_path b =
      "data:" ++ mimeGet (extLower image_path) ++ ";base64," ++ String.mk (b64encode b)
    ∧ (∀ c ∈ (image_to_data_uri image_path b).data, c.isWhitespace = false)
    ∧ b64decode (b64encode b) = b := by
  refine ⟨rfl, ?_, b64decode_encode b hb⟩
  intro c hc
  rw [show image_to_data_uri image_path b
      = "data:" ++ mimeGet (extLower image_path) ++ ";base64," ++ String.mk (b64encode b)
      from rfl] at hc
  simp only [String.data_append] at hc
  rcases List.mem_append.mp hc with hc1 | hcenc
  · rcases List.mem_append.mp hc1 with hc2 | hcsep
    · rcases List.mem_append.mp hc2 with hcd | hcm
      · exact (by decide : ∀ x ∈ "data:".data, x.isWhitespace = false) c hcd
      · exact mimeGet_not_ws _ c hcm
    · exact (by decide : ∀ x ∈ ";base64,".data, x.isWhitespace = false) c hcsep
  · exact b64encode_not_ws b c hcenc

/-- Closed instance of data_uri_roundtrip at a concrete path and content. -/
theorem data_uri_roundtrip_witness :
    image_to_data_uri "glyphs/m_00.png" [137, 80, 78] =
      "data:" ++ mimeGet (extLower "glyphs/m_00.png") ++ ";base64," ++
        String.mk (b64encode [137, 80, 78])
    ∧ (∀ c ∈ (image_to_data_uri "glyphs/m_00.png" [137, 80, 78]).data,
        c.isWhitespace = false)
    ∧ b64decode (b64encode [137, 80, 78]) = [137, 80, 78] :=
  data_uri_roundtrip "glyphs/m_00.png" [137, 80, 78] (by decide) (by decide)

/-- C4: on a folder path that does not exist, the batch converter prints the
not-found message, creates no output file, records no results, and raises no
exception. -/
theorem missing_folder_reports_error (folder_path : String) (st : FolderState)
    (h : st.existsFS = false) :
    convert_all_images_in_folder folder_path st =
      { printed := ["Error: Folder \x27" ++ folder_path ++ "\x27 not found!"],
        results := [], written := none, exn := none } := by
  simp [convert_all_images_in_folder, h]

/-- Closed instance of missing_folder_reports_error. -/
theorem missing_folder_reports_error_witness :
    convert_all_images_in_folder "missing" ⟨false, false, []⟩ =
      { printed := ["Error: Folder \x27missing\x27 not found!"],
        results := [], written := none, exn := none } :=
  missing_folder_reports_error "missing" ⟨false, false, []⟩ rfl

/-- C9: on a path naming an existing non-directory, the guard passes (no
not-found message is printed), the directory iteration raises an uncaught
NotADirectoryError, and no output file is written. -/
theorem guard_only_checks_existence (folder_path : String) (st : FolderState)
    (h1 : st.existsFS = true) (h2 : st.isDir = false) :
    convert_all_images_in_folder folder_path st =
      { printed := [], results := [], written := none,
        exn := some "NotADirectoryError" } := by
  simp [convert_all_images_in_folder, h1, h2]

/-- Closed instance of guard_only_checks_existence. -/
theorem guard_only_checks_existence_witness :
    convert_all_images_in_folder "somefile.txt" ⟨true, false, []⟩ =
      { printed := [], results := [], written := none,
        exn := some "NotADirectoryError" } :=
  guard_only_checks_existence "somefile.txt" ⟨true, false, []⟩ rfl rfl

/-- C8: the fixed-folder variant has no existence check: on an absent source
folder the directory listing raises an uncaught FileNotFoundError, nothing is
printed, and no output is written. -/
theorem fixed_variant_unchecked_missing_folder (st : FolderState)
    (h : st.existsFS = false) :
    fixedFolderScript st =
      { printed := [], results := [], written := none,
        exn := some "FileNotFoundError" } := by
  simp [fixedFolderScript, h]

/-- Closed instance of fixed_variant_unchecked_missing_folder. -/
theorem fixed_variant_unchecked_missing_folder_witness :
    fixedFolderScript ⟨false, false, []⟩ =
      { printed := [], results := [], written := none,
        exn := some "FileNotFoundError" } :=
  fixed_variant_unchecked_missing_folder ⟨false, false, []⟩ rfl

theorem dictInsert_not_mem (m : List (String × String)) (k v : String)
    (h : ∀ kv ∈ m, kv.1 ≠ k) : dictInsert m k v = m ++ [(k, v)] := by
  unfold dictInsert
  rw [if_neg]
  simp only [List.any_eq_true, decide_eq_true_eq, not_exists, not_and]
  exact fun kv hkv => h kv hkv

theorem convLoop_all_skip (fp : String) (l : List (String × List Nat))
    (h : ∀ e ∈ l, strLower (pathSuffixStr e.1) ∉ extensions) :
    ∀ pr rs, convLoop fp pr rs l = (pr, rs) := by
  induction l with
  | nil => intro pr rs; rfl
  | cons e t ih =>
      intro pr rs
      obtain ⟨name, content⟩ := e
      rw [convLoop, if_neg (h (name, content) (by simp))]
      exact ih (fun x hx => h x (by simp [hx])) pr rs

theorem convLoop_results (fp : String) (l : List (String × List Nat)) :
    ∀ (pr : List String) (rs : List (String × String)),
    (l.map Prod.fst).Nodup →
    (∀ n ∈ l.map Prod.fst, ∀ kv ∈ rs, kv.1 ≠ n) →
    (convLoop fp pr rs l).2 = rs ++
      (l.filter (fun e => strLower (pathSuffixStr e.1) ∈ extensions)).map
        (fun e => (e.1, image_to_data_uri (fp ++ "/" ++ e.1) e.2)) := by
  induction l with
  | nil => intro pr rs _ _; simp [convLoop]
  | cons e t ih =>
      intro pr rs hnd hdisj
      obtain ⟨name, content⟩ := e
      by_cases hs : strLower (pathSuffixStr name) ∈ extensions
      · rw [convLoop, if_pos hs]
        rw [dictInsert_not_mem _ _ _ (fun kv hkv => hdisj name (by simp) kv hkv)]
        rw [ih _ _ (by simpa using hnd.of_cons) ?_]
        · rw [List.filter_cons_of_pos (by simpa using hs)]
          simp [List.append_assoc]
        · intro n hn kv hkv
          rcases List.mem_append.mp hkv with hkv1 | hkv2
          · exact hdisj n (by simp [hn]) kv hkv1
          · simp only [List.mem_singleton] at hkv2
            subst hkv2
            intro hkn
            have hkn2 : name = n := hkn
            subst hkn2
            exact (List.nodup_cons.mp (by simpa using hnd)).1 hn
      · rw [convLoop, if_neg hs]
        rw [ih _ _ (by simpa using hnd.of_cons)
              (fun n hn kv hkv => hdisj n (by simp [hn]) kv hkv)]
        rw [List.filter_cons_of_neg (by simpa using hs)]

theorem str_append_empty (s : String) : s ++ "" = s := by
  cases s with
  | mk l =>
      show String.mk (l ++ []) = String.mk l
      rw [List.append_nil]

theorem str_append_assoc (a b c : String) : a ++ b ++ c = a ++ (b ++ c) := by
  cases a with
  | mk la =>
      cases b with
      | mk lb =>
          cases c with
          | mk lc =>
              show String.mk (la ++ lb ++ lc) = String.mk (la ++ (lb ++ lc))
              rw [List.append_assoc]

/-- C5: for an existing directory, the keys of the accumulated mapping are
exactly the names of the entries whose lowered suffix is a supported image
extension, in order and with case preserved. -/
theorem output_keys_are_supported_names (folder_path : String) (st : FolderState)
    (h1 : st.existsFS = true) (h2 : st.isDir = true)
    (hnd : (st.entries.map Prod.fst).Nodup) :
    (convert_all_images_in_folder folder_path st).results.map Prod.fst =
      (st.entries.filter
        (fun e => strLower (pathSuffixStr e.1) ∈ extensions)).map Prod.fst := by
  simp only [convert_all_images_in_folder, h1, h2, Bool.true_eq_false, if_false]
  rw [convLoop_results folder_path st.entries [] [] hnd (by simp)]
  simp [List.map_map, Function.comp]

/-- C7: on an existing directory none of whose entries has a supported
extension, the converter writes an empty JSON object and reports a count of
zero. -/
theorem empty_folder_empty_json (folder_path : String) (st : FolderState)
    (h1 : st.existsFS = true) (h2 : st.isDir = true)
    (h3 : ∀ e ∈ st.entries, strLower (pathSuffixStr e.1) ∉ extensions) :
    convert_all_images_in_folder folder_path st =
      { printed := ["\n✓ Converted 0 images",
                    "✓ Results saved to: " ++ folder_path ++ "/converted_images.json",
                    "\nYou can now copy the data URIs from the JSON file!"],
        results := [],
        written := some (folder_path ++ "/converted_images.json", "\x7b\x7d"),
        exn := none } := by
  simp [convert_all_images_in_folder, h1, h2,
        convLoop_all_skip folder_path st.entries h3, jsonDump]
  exact ⟨rfl, (str_append_assoc _ _ _).symm⟩

theorem convLoop_insert_skip (fp name : String) (b : List Nat)
    (hname : strLower (pathSuffixStr name) ∉ extensions)
    (l1 l2 : List (String × List Nat)) :
    ∀ pr rs, convLoop fp pr rs (l1 ++ (name, b) :: l2)
      = convLoop fp pr rs (l1 ++ l2) := by
  induction l1 with
  | nil =>
      intro pr rs
      simp only [List.nil_append]
      rw [convLoop, if_neg hname]
  | cons e t ih =>
      intro pr rs
      obtain ⟨n, c⟩ := e
      simp only [List.cons_append]
      rw [convLoop, convLoop]
      by_cases hs : strLower (pathSuffixStr n) ∈ extensions
      · rw [if_pos hs, if_pos hs]; exact ih _ _
      · rw [if_neg hs, if_neg hs]; exact ih _ _

/-- C6: rerunning the converter after the first run has deposited
converted_images.json inside the scanned folder produces exactly the same
output — in particular a byte-identical output JSON. -/
theorem second_run_identical (folder_path : String) (b : List Nat)
    (l1 l2 : List (String × List Nat)) :
    convert_all_images_in_folder folder_path
        ⟨true, true, l1 ++ ("converted_images.json", b) :: l2⟩ =
      convert_all_images_in_folder folder_path ⟨true, true, l1 ++ l2⟩ := by
  simp only [convert_all_images_in_folder, Bool.true_eq_false, if_false]
  rw [convLoop_insert_skip folder_path "converted_images.json" b (by decide) l1 l2]

/-- C10: a zero-byte file with a supported extension encodes to a data URI
with an empty base64 payload, and the batch converter records that entry in
the mapping like any other. -/
theorem zero_byte_file_entry (folder_path name : String) (st : FolderState)
    (h1 : st.existsFS = true) (h2 : st.isDir = true)
    (hnd : (st.entries.map Prod.fst).Nodup)
    (hmem : (name, ([] : List Nat)) ∈ st.entries)
    (hsup : strLower (pathSuffixStr name) ∈ extensions) :
    image_to_data_uri (folder_path ++ "/" ++ name) [] =
      "data:" ++ mimeGet (extLower (folder_path ++ "/" ++ name)) ++ ";base64,"
    ∧ (name, image_to_data_uri (folder_path ++ "/" ++ name) []) ∈
        (convert_all_images_in_folder folder_path st).results := by
  constructor
  · show "data:" ++ mimeGet (extLower (folder_path ++ "/" ++ name)) ++ ";base64,"
        ++ String.mk (b64encode []) = _
    rw [show String.mk (b64encode []) = "" from rfl]
    exact str_append_empty _
  · simp only [convert_all_images_in_folder, h1, h2, Bool.true_eq_false, if_false]
    rw [convLoop_results folder_path st.entries [] [] hnd (by simp)]
    simp only [List.nil_append]
    exact List.mem_map.mpr ⟨(name, []),
      List.mem_filter.mpr ⟨hmem, by simpa using hsup⟩, rfl⟩

/-- Closed instance of output_keys_are_supported_names: a folder holding
a.png and b.txt yields exactly the key a.png. -/
theorem output_keys_are_supported_names_witness :
    (convert_all_images_in_folder "folder"
        ⟨true, true, [("a.png", [137, 80, 78, 71]), ("b.txt", [104, 105])]⟩).results.map
        Prod.fst = ["a.png"] := by
  rw [output_keys_are_supported_names "folder"
        ⟨true, true, [("a.png", [137, 80, 78, 71]), ("b.txt", [104, 105])]⟩
        rfl rfl (by decide)]
  decide

/-- Closed instance of empty_folder_empty_json. -/
theorem empty_folder_empty_json_witness :
    convert_all_images_in_folder "empty" ⟨true, true, [("readme.txt", [104])]⟩ =
      { printed := ["\n✓ Converted 0 images",
                    "✓ Results saved to: empty/converted_images.json",
                    "\nYou can now copy the data URIs from the JSON file!"],
        results := [],
        written := some ("empty/converted_images.json", "\x7b\x7d"),
        exn := none } :=
  (empty_folder_empty_json "empty" ⟨true, true, [("readme.txt", [104])]⟩
    rfl rfl (by decide)).trans (by decide)

/-- Closed instance of zero_byte_file_entry. -/
theorem zero_byte_file_entry_witness :
    image_to_data_uri ("f" ++ "/" ++ "z.gif") [] =
      "data:" ++ mimeGet (extLower ("f" ++ "/" ++ "z.gif")) ++ ";base64,"
    ∧ ("z.gif", image_to_data_uri ("f" ++ "/" ++ "z.gif") []) ∈
        (convert_all_images_in_folder "f" ⟨true, true, [("z.gif", [])]⟩).results :=
  zero_byte_file_entry "f" "z.gif" ⟨true, true, [("z.gif", [])]⟩
    rfl rfl (by decide) (by decide) (by decide)

/-- C1 counterexample: the file x.jpeg passes the fixed-folder filter and the
loop stores an image/png data URI for it, while image_to_data_uri on the same
file yields image/jpeg — the variant is not a restricted special case of the
single-file encoder on all the extensions it supports. -/
theorem variant_refines_encoder_cex :
    (fixedFolderScript ⟨true, true, [("x.jpeg", [137])]⟩).results
      = [("x.jpeg", variantDataUri "x.jpeg" [137])]
    ∧ variantDataUri "x.jpeg" [137] ≠ image_to_data_uri ("primary/" ++ "x.jpeg") [137] :=
  ⟨by decide, by decide⟩

theorem splitextExt_primary (name : String)
    (hslash : ∀ c ∈ name.data, c ≠ '/')
    (hstem : (name.data.reverse.dropWhile (fun c => c ≠ '.')).tail.any
      (fun c => c ≠ '.') = true) :
    splitextExt ("primary/" ++ name).data
      = '.' :: (name.data.reverse.takeWhile (fun c => c ≠ '.')).reverse := by
  simp only [splitextExt]
  rw [String.data_append, List.reverse_append,
      show ("primary/".data).reverse = '/' :: ['y','r','a','m','i','r','p'] from rfl,
      takeWhile_append_stop _ _ _ '/'
        (fun c hc => decide_eq_true (hslash c (List.mem_reverse.mp hc)))
        (by decide),
      List.reverse_reverse]
  rw [if_pos hstem]

/-- C1 amended: restricted to entry names without a path separator, with some
non-dot character before the final dot, and whose lowered suffix is .png or
.jpg, the fixed-folder mapping value does equal the value the single-file
encoder produces for the same file; the .jpeg case is excluded by the
counterexample. -/
theorem variant_refines_encoder_amended (name : String) (content : List Nat)
    (hslash : ∀ c ∈ name.data, c ≠ '/')
    (hstem : (name.data.reverse.dropWhile (fun c => c ≠ '.')).tail.any
      (fun c => c ≠ '.') = true)
    (hsup : strLower (pathSuffixStr name) ∈ [".png", ".jpg"]) :
    variantDataUri name content = image_to_data_uri ("primary/" ++ name) content := by
  by_cases hc : (name.data.reverse.dropWhile (fun c => c ≠ '.')) ≠ []
      ∧ (name.data.reverse.takeWhile (fun c => c ≠ '.')) ≠ []
      ∧ (name.data.reverse.dropWhile (fun c => c ≠ '.')).tail ≠ []
  · have hps : pathSuffix name.data
        = '.' :: (name.data.reverse.takeWhile (fun c => c ≠ '.')).reverse := by
      simp only [pathSuffix]
      rw [if_pos hc]
    have hlow : strLower (pathSuffixStr name)
        = String.mk ('.' ::
            ((name.data.reverse.takeWhile (fun c => c ≠ '.')).reverse.map
              Char.toLower)) := by
      simp only [pathSuffixStr, strLower, hps, List.map_cons]
      rfl
    rw [hlow] at hsup
    have hext0 : extLower ("primary/" ++ name)
        = String.mk ((name.data.reverse.takeWhile (fun c => c ≠ '.')).reverse.map
            Char.toLower) := by
      simp only [extLower, splitextExt_primary name hslash hstem,
        List.drop_succ_cons, List.drop_zero]
    simp only [List.mem_cons, List.mem_singleton, List.not_mem_nil, or_false] at hsup
    rcases hsup with hcase | hcase
    · have hB : (name.data.reverse.takeWhile (fun c => c ≠ '.')).reverse.map
          Char.toLower = ['p', 'n', 'g'] := by
        have := congrArg String.data hcase
        simpa using this
      have hext : extLower ("primary/" ++ name) = "png" := by
        rw [hext0, hB]
      simp only [variantDataUri, image_to_data_uri, hlow, hcase, hext]
      rw [if_neg (by decide : ¬((".png" : String) = ".jpg"))]
      rfl
    · have hB : (name.data.reverse.takeWhile (fun c => c ≠ '.')).reverse.map
          Char.toLower = ['j', 'p', 'g'] := by
        have := congrArg String.data hcase
        simpa using this
      have hext : extLower ("primary/" ++ name) = "jpg" := by
        rw [hext0, hB]
      simp only [variantDataUri, image_to_data_uri, hlow, hcase, hext]
      rw [if_pos trivial]
      rfl
  · have hps : pathSuffix name.data = [] := by
      simp only [pathSuffix]
      rw [if_neg hc]
    rw [show strLower (pathSuffixStr name) = String.mk ((pathSuffix name.data).map
          Char.toLower) from rfl, hps] at hsup
    exact absurd hsup (by decide)

/-- C2: for every file path and content, the MIME segment of the string
returned by image_to_data_uri is exactly the claimed table applied to the
lowered, dot-stripped extension of the path. -/
theorem mime_segment_determined_by_ext (image_path : String) (content : List Nat) :
    mimeSegment (image_to_data_uri image_path content)
      = claimMime (extLower image_path) := by
  unfold image_to_data_uri
  rw [mimeSegment_build _ _ (mimeGet_no_semicolon _), mimeGet_eq_claim]

/-- Closed instance of variant_refines_encoder_amended. -/
theorem variant_refines_encoder_amended_witness :
    variantDataUri "a.png" [1, 2, 3]
      = image_to_data_uri ("primary/" ++ "a.png") [1, 2, 3] :=
  variant_refines_encoder_amended "a.png" [1, 2, 3]
    (by decide) (by decide) (by decide)

end ConvertImages
